import Mathlib

/-!
Verification of the job-control core of `src/tsh.c` (TinyShell).

Machine integers are modelled as unbounded (`Nat`/`Int`) with C's truncating
division written `Int.tdiv`; pids, job ids and signal numbers are `Nat`.
Functions from `tsh_helper` (the job-list primitives) are not under `src/`
and are modelled from the spec where needed; every function of `src/tsh.c`
itself is embedded directly from its source.
-/

namespace Tsh

/-- Job states, after `tsh_helper.h`'s `job_state`: `FG` (foreground running),
`BG` (background running), `ST` (stopped). -/
inductive JState
  | FG
  | BG
  | ST
  deriving DecidableEq, Repr

/-- One entry of the job list: process id, job id, state and the command
line, after `tsh_helper.h`'s `struct job_t`. -/
structure Job where
  pid : Nat
  jid : Nat
  state : JState
  cmdline : String
  deriving DecidableEq, Repr

/-- Modelled from the spec: `tsh_helper`'s `getjobpid` (not under `src/`),
the `find_by_pid(pid) -> Job?` lookup of the Job Table. -/
def getjobpid (jobs : List Job) (pid : Nat) : Option Job :=
  jobs.find? (fun j => j.pid == pid)

/-- Modelled from the spec: `tsh_helper`'s `getjobjid` (not under `src/`),
the `find_by_job_id(id) -> Job?` lookup.  The id argument is an `Int`
because `gjid_past_perc` hands over a C `int`. -/
def getjobjid (jobs : List Job) (jid : Int) : Option Job :=
  jobs.find? (fun j => (j.jid : Int) == jid)

/-- Modelled from the spec: `tsh_helper`'s `fgpid` (not under `src/`) —
the pid of the job in `FG` state, `0` when no such job exists
(`find_foreground() -> Job?` with the conventional `0` for "none"). -/
def fgpid (jobs : List Job) : Nat :=
  match jobs.find? (fun j => j.state == JState.FG) with
  | some j => j.pid
  | none => 0

/-- Modelled from the spec: the job id `addjob` assigns — a fresh id larger
than every id in use (spec section 3: monotonically increasing; the
wraparound after the configured maximum is not reached in any claim). -/
def nextjid (jobs : List Job) : Nat :=
  (jobs.map Job.jid).foldr max 0 + 1

/-- Modelled from the spec: `tsh_helper`'s `addjob` (not under `src/`) —
`add(pid, initial_state, command_text) -> job_id` appends a fresh entry.
The fixed capacity (at which the source is fatal) is not modelled: no claim
concerns it. -/
def addjob (jobs : List Job) (pid : Nat) (st : JState) (cmdline : String) :
    List Job :=
  jobs ++ [Job.mk pid (nextjid jobs) st cmdline]

/-- Modelled from the spec: `tsh_helper`'s `deletejob` (not under `src/`) —
`remove(pid)` drops the entry with that pid. -/
def deletejob (jobs : List Job) (pid : Nat) : List Job :=
  jobs.filter (fun j => j.pid != pid)

/-- An in-place `job->state = s` through the pointer returned by a lookup,
rendered as an update of the entry carrying that pid. -/
def set_state (jobs : List Job) (pid : Nat) (s : JState) : List Job :=
  jobs.map (fun j => if j.pid = pid then Job.mk j.pid j.jid s j.cmdline else j)

/-- Signal number of SIGINT on Linux. -/
def SIGINT : Nat := 2

/-- Signal number of SIGTSTP on Linux. -/
def SIGTSTP : Nat := 20

/-- Signal number of SIGCONT on Linux. -/
def SIGCONT : Nat := 18

/-- The `while(n--) N += N << 2;` loop of `Npow10` (src/tsh.c:374): the
body multiplies the accumulator by five (`N + (N << 2)`), and the loop runs
`n` times. -/
def npow10_loop : Int → Nat → Int
  | N, 0 => N
  | N, Nat.succ n => npow10_loop (N + N * 4) n

/-- C function `int Npow10(int N, int n)` (src/tsh.c:371-376): first
`N <<= n` (that is, `N * 2 ^ n`), then the multiply-by-five loop, finally
`return N/10` with C's truncating integer division (`Int.tdiv`). -/
def Npow10 (N : Int) (n : Nat) : Int :=
  Int.tdiv (npow10_loop (N * 2 ^ n) n) 10

/-- Modelled from the C standard library (not part of this repository):
`atoi` reads the longest leading run of decimal digits.  Leading whitespace
and sign handling are omitted: `gjid_past_perc` only ever passes suffixes
of the digit string that follows the `%`. -/
def atoi_digits : List Char → Nat → Nat
  | [], acc => acc
  | c :: cs, acc =>
      if c.isDigit then atoi_digits cs (acc * 10 + (c.toNat - 48)) else acc

/-- The `atoi(job_str)` call of src/tsh.c:388 on the tail of the token. -/
def atoi (s : List Char) : Nat := atoi_digits s 0

/-- The `for` loop of `gjid_past_perc` (src/tsh.c:387-389):
`jid = jid * Npow10(10, count) + atoi(job_str++)`, with `count` running up
while `remaining` runs down from `jid_digits`, and `job_str++` dropping one
character per iteration (after `atoi` has read the current suffix). -/
def gjid_loop : List Char → Nat → Nat → Int → Int
  | _, _, 0, jid => jid
  | s, count, Nat.succ r, jid =>
      gjid_loop s.tail (count + 1) r (jid * Npow10 10 count + (atoi s : Int))

/-- C function `int gjid_past_perc(char* argv1)` (src/tsh.c:382-391):
`job_str = argv1 + 1`, `jid_digits = strlen(argv1) - 1`, then the
accumulation loop starting from `jid = 0`. -/
def gjid_past_perc (argv1 : String) : Int :=
  gjid_loop argv1.data.tail 0 (argv1.length - 1) 0

/-- C function `void print_kill_job(int jid, pid_t pid, int sig)`
(src/tsh.c:347-368): the `Sio_puts`/`Sio_putl` calls concatenated in source
order, with the `switch (sig)` supplying the verb — `terminated` for
SIGINT, `stopped` for SIGTSTP, and nothing at all in the `default` case. -/
def print_kill_job (jid pid sig : Nat) : String :=
  "Job [" ++ toString jid ++ "] (" ++ toString pid ++ ") " ++
    (if sig = SIGINT then "terminated"
     else if sig = SIGTSTP then "stopped" else "") ++
    " by signal " ++ toString sig ++ "\n"

/-- One child status report retrieved by the `waitpid` call of
src/tsh.c:259: exited normally (`WIFEXITED`), terminated by an uncaught
signal (`WIFSIGNALED`, carrying `WTERMSIG`), or stopped (`WIFSTOPPED`,
carrying `WSTOPSIG`). -/
inductive ChildEvent
  | exited
  | signaled (sig : Nat)
  | stopped (sig : Nat)
  deriving DecidableEq, Repr

/-- Result of one `sigchld_handler` loop iteration: the job list, the text
written by `print_kill_job` (empty when nothing is printed), and the value
of the `sig_chld` flag afterwards. -/
structure ReapResult where
  jobs : List Job
  out : String
  sig_chld : Bool
  deriving DecidableEq, Repr

/-- One iteration of `sigchld_handler`'s `while (waitpid(...))` loop
(src/tsh.c:259-281) for a reported `pid`: look the job up, on termination
delete it (printing the notice when the termination was by signal), on a
stop set its state to `ST` and print the notice, and set `sig_chld` when
the job's state recorded *before* this change was `FG`.  The `none` result
models the unchecked null dereference of src/tsh.c:262 when the pid is not
in the job list — unreachable per spec section 4.3. -/
def reap_one (jobs : List Job) (flag : Bool) (pid : Nat) (ev : ChildEvent) :
    Option ReapResult :=
  match getjobpid jobs pid with
  | none => none
  | some job =>
    match ev with
    | ChildEvent.exited =>
        some (ReapResult.mk (deletejob jobs pid) ("")
          (if job.state = JState.FG then true else flag))
    | ChildEvent.signaled s =>
        some (ReapResult.mk (deletejob jobs pid) (print_kill_job job.jid pid s)
          (if job.state = JState.FG then true else flag))
    | ChildEvent.stopped s =>
        some (ReapResult.mk (set_state jobs pid JState.ST)
          (print_kill_job job.jid pid s)
          (if job.state = JState.FG then true else flag))

/-- Result of `builtin_bgfg`: the job list, the `Kill` calls issued as
(target, signal) pairs, the `printf` output, and the `sig_chld` flag
afterwards. -/
structure BgfgResult where
  jobs : List Job
  kills : List (Int × Nat)
  out : String
  sig_chld : Bool
  deriving DecidableEq, Repr

/-- C function `void builtin_bgfg(char* argv1, sigset_t newmask,
job_state state)` (src/tsh.c:396-416): parse the job id with
`gjid_past_perc`, look it up with `getjobjid`; only `if (job && job->state
== ST)` send `SIGCONT` to the group `-job->pid` and then, per the `state`
argument, either (`FG`) clear `sig_chld` and set the job's state to `FG`,
or (`BG`) set it to `BG` and print the announcement
`[jid] (pid) cmdline`.  In every other case nothing happens. -/
def builtin_bgfg (argv1 : String) (state : JState) (jobs : List Job)
    (flag : Bool) : BgfgResult :=
  match getjobjid jobs (gjid_past_perc argv1) with
  | some job =>
    if job.state = JState.ST then
      match state with
      | JState.FG =>
          BgfgResult.mk (set_state jobs job.pid JState.FG)
            [(-(job.pid : Int), SIGCONT)] ("") false
      | JState.BG =>
          BgfgResult.mk (set_state jobs job.pid JState.BG)
            [(-(job.pid : Int), SIGCONT)]
            ("[" ++ toString (gjid_past_perc argv1) ++ "] (" ++
              toString job.pid ++ ") " ++ job.cmdline ++ "\n") flag
      | JState.ST =>
          BgfgResult.mk jobs [(-(job.pid : Int), SIGCONT)] ("") flag
    else BgfgResult.mk jobs [] ("") flag
  | none => BgfgResult.mk jobs [] ("") flag

/-- C function `pid_t get_sig_gpid()` (src/tsh.c:321-331): `-fgpid(job_list)`
computed under the blocking guard. -/
def get_sig_gpid (jobs : List Job) : Int := -(fgpid jobs : Int)

/-- C function `void sigint_handler(int sig)` (src/tsh.c:289-293): its body
is unconditionally the single call `Kill(get_sig_gpid(), SIGINT)`; this is
the (target, signal) pair that call passes. -/
def sigint_handler_kill (jobs : List Job) : Int × Nat :=
  (get_sig_gpid jobs, SIGINT)

/-- C function `void sigtstp_handler(int sig)` (src/tsh.c:299-303):
unconditionally the single call `Kill(get_sig_gpid(), SIGTSTP)`. -/
def sigtstp_handler_kill (jobs : List Job) : Int × Nat :=
  (get_sig_gpid jobs, SIGTSTP)

/-- The atomic actions of `eval`'s external-command parent path
(src/tsh.c:198-231), in source order.  `sigsuspendLoop` stands for the whole
`while (!sig_chld) Sigsuspend(&oldmask)` loop: `Sigsuspend` atomically
installs `oldmask` (the mask saved before the block, in which the three
signals are deliverable) for the duration of the wait, so entering the loop
is the point at which the guard is exchanged for the wait. -/
inductive EvalInstr
  | blockSigs
  | forkChild
  | clearFlag
  | addJob (st : JState)
  | printBgLine
  | unblockSigs
  | sigsuspendLoop
  deriving DecidableEq, Repr

/-- The parent-side instruction sequence of `eval`'s `BUILTIN_NONE` case on
`PARSELINE_FG` (src/tsh.c:201-224): block, fork, `sig_chld = 0`, `addjob`,
then the suspend loop (the trailing unblock of line 224 runs after the
wait and is irrelevant to guard coverage of the add). -/
def eval_external_fg : List EvalInstr :=
  [EvalInstr.blockSigs, EvalInstr.forkChild, EvalInstr.clearFlag,
   EvalInstr.addJob JState.FG, EvalInstr.sigsuspendLoop]

/-- The parent-side instruction sequence of `eval`'s `BUILTIN_NONE` case on
`PARSELINE_BG` (src/tsh.c:201-230): block, fork, `addjob`, print the
announcement, unblock. -/
def eval_external_bg : List EvalInstr :=
  [EvalInstr.blockSigs, EvalInstr.forkChild, EvalInstr.addJob JState.BG,
   EvalInstr.printBgLine, EvalInstr.unblockSigs]

/-- Effect of one instruction on whether the set {SIGCHLD, SIGINT, SIGTSTP}
is blocked: `Sigprocmask(SIG_BLOCK, newmask, ...)` blocks it,
`Sigprocmask(SIG_UNBLOCK, ...)` releases it, and `Sigsuspend(&oldmask)`
swaps in the pre-block mask (signals deliverable) for the wait. -/
def mask_step (m : Bool) : EvalInstr → Bool
  | EvalInstr.blockSigs => true
  | EvalInstr.unblockSigs => false
  | EvalInstr.sigsuspendLoop => false
  | _ => m

/-- Whether the three signals are blocked while the instruction at index
`i` executes (that is, after the first `i` instructions have run; the
sequence is entered with the signals deliverable). -/
def blocked_at (prog : List EvalInstr) (i : Nat) : Bool :=
  (prog.take i).foldl mask_step false

/-- Whether an instruction releases the guard (makes the three signals
deliverable again): the explicit unblock, or the atomic exchange performed
by entering the suspend loop. -/
def releases_guard : EvalInstr → Bool
  | EvalInstr.unblockSigs => true
  | EvalInstr.sigsuspendLoop => true
  | _ => false

/-- Whether an instruction is the `addjob` call. -/
def is_addjob : EvalInstr → Bool
  | EvalInstr.addJob _ => true
  | _ => false

/-- The guard-coverage property of spec section 4.2 for one instruction
sequence: between the fork and the `addjob` (inclusive) the three signals
are blocked at every instruction, and every guard-releasing instruction
comes strictly after the `addjob`. -/
def guard_spans_add (prog : List EvalInstr) : Prop :=
  ∀ i j k : Fin prog.length,
    prog.get i = EvalInstr.forkChild → is_addjob (prog.get j) = true →
    ((i.val ≤ k.val → k.val ≤ j.val → blocked_at prog k.val = true) ∧
     (releases_guard (prog.get k) = true → j.val < k.val))

/-- Program points of the foreground wait loop
`while (!sig_chld) Sigsuspend(&oldmask)` (src/tsh.c:195-196) as it runs on
the `fg`-builtin path, where `builtin_bgfg` has already *unblocked* the
three signals (src/tsh.c:414) before the loop is reached. -/
inductive WaitLoc
  | check
  | preSuspend
  | suspended
  | finished
  deriving DecidableEq, Repr

/-- State of the foreground wait: the program point, the `sig_chld` flag,
and how many SIGCHLD deliveries the kernel will still make (state changes
of the foreground child not yet delivered to the shell). -/
structure WaitState where
  loc : WaitLoc
  sig_chld : Bool
  pending : Nat
  deriving DecidableEq, Repr

/-- Interleaving semantics of the `fg` wait.  Shell steps: the `!sig_chld`
check either exits the loop or proceeds to the `Sigsuspend` call, which
suspends.  Delivery steps: at `check` or `preSuspend` the signals are
deliverable (src/tsh.c:414 unblocked them), so `sigchld_handler` runs at
once and sets `sig_chld`; at `suspended`, a delivery wakes `Sigsuspend`,
the handler sets `sig_chld`, and control returns to the check. -/
inductive WaitStep : WaitState → WaitState → Prop
  | exitLoop (e : Nat) :
      WaitStep (WaitState.mk WaitLoc.check true e)
        (WaitState.mk WaitLoc.finished true e)
  | toSuspend (e : Nat) :
      WaitStep (WaitState.mk WaitLoc.check false e)
        (WaitState.mk WaitLoc.preSuspend false e)
  | suspend (f : Bool) (e : Nat) :
      WaitStep (WaitState.mk WaitLoc.preSuspend f e)
        (WaitState.mk WaitLoc.suspended f e)
  | deliverAtCheck (f : Bool) (e : Nat) :
      WaitStep (WaitState.mk WaitLoc.check f (e + 1))
        (WaitState.mk WaitLoc.check true e)
  | deliverAtPre (f : Bool) (e : Nat) :
      WaitStep (WaitState.mk WaitLoc.preSuspend f (e + 1))
        (WaitState.mk WaitLoc.preSuspend true e)
  | deliverWake (f : Bool) (e : Nat) :
      WaitStep (WaitState.mk WaitLoc.suspended f (e + 1))
        (WaitState.mk WaitLoc.check true e)

/-- Reflexive-transitive closure of `WaitStep`. -/
inductive WaitReach (s : WaitState) : WaitState → Prop
  | refl : WaitReach s s
  | step {t u : WaitState} : WaitReach s t → WaitStep t u → WaitReach s u

/-- Whole-shell state: the job list, the `sig_chld` flag (src/tsh.c:44),
and whether `eval` is currently inside a foreground wait loop
(src/tsh.c:195-196 or 220-222) rather than back at the prompt. -/
structure Shell where
  jobs : List Job
  sig_chld : Bool
  waiting : Bool
  deriving DecidableEq, Repr

/-- Transitions of the shell, each built from the embedded operations of
`src/tsh.c`.  Dispatcher transitions (`launchFG`, `launchBG`, `bgCmd`,
`fgCmd`) require the shell to be at the prompt (`waiting = false`); the
created pid is fresh because the OS never reuses the pid of a live,
unreaped child which by spec section 3 is still in the table.  `reap` is
one `sigchld_handler` iteration and can interleave anywhere; `wake` is the
foreground wait loop observing `sig_chld` and returning to the prompt. -/
inductive ShellStep : Shell → Shell → Prop
  | launchFG (s : Shell) (pid : Nat) (cmd : String) :
      s.waiting = false → getjobpid s.jobs pid = none →
      ShellStep s (Shell.mk (addjob s.jobs pid JState.FG cmd) false true)
  | launchBG (s : Shell) (pid : Nat) (cmd : String) :
      s.waiting = false → getjobpid s.jobs pid = none →
      ShellStep s (Shell.mk (addjob s.jobs pid JState.BG cmd) s.sig_chld false)
  | bgCmd (s : Shell) (tok : String) :
      s.waiting = false →
      ShellStep s (Shell.mk (builtin_bgfg tok JState.BG s.jobs s.sig_chld).jobs
        (builtin_bgfg tok JState.BG s.jobs s.sig_chld).sig_chld false)
  | fgCmd (s : Shell) (tok : String) :
      s.waiting = false →
      ShellStep s (Shell.mk (builtin_bgfg tok JState.FG s.jobs s.sig_chld).jobs
        (builtin_bgfg tok JState.FG s.jobs s.sig_chld).sig_chld true)
  | reap (s : Shell) (pid : Nat) (ev : ChildEvent) (r : ReapResult) :
      reap_one s.jobs s.sig_chld pid ev = some r →
      ShellStep s (Shell.mk r.jobs r.sig_chld s.waiting)
  | wake (s : Shell) :
      s.waiting = true → s.sig_chld = true →
      ShellStep s (Shell.mk s.jobs s.sig_chld false)

/-- States of the shell reachable from start-up: empty job list, clear
flag, at the prompt. -/
inductive ShellReach : Shell → Prop
  | init : ShellReach (Shell.mk [] false false)
  | step {s t : Shell} : ShellReach s → ShellStep s t → ShellReach t

/-- Number of jobs in `FG` state. -/
def fg_count (jobs : List Job) : Nat :=
  jobs.countP (fun j => j.state == JState.FG)

/-- The inductive invariant for claim C1: pids are pairwise distinct, at
most one job is in `FG` state, and whenever the `sig_chld` flag is set or
the dispatcher is at the prompt there is no `FG` job at all. -/
def ShellInv (s : Shell) : Prop :=
  (s.jobs.map Job.pid).Nodup ∧ fg_count s.jobs ≤ 1 ∧
    (s.sig_chld = true → fg_count s.jobs = 0) ∧
    (s.waiting = false → fg_count s.jobs = 0)

/-- Where a `kill(target, sig)` call delivers its signal. -/
inductive KillDest
  | ownGroup
  | group (g : Nat)
  | single (p : Nat)
  deriving DecidableEq, Repr

/-- Modelled from the spec (POSIX `kill` addressing; not code of this
repository): a negative target names the process group `-target`, the
target `0` names the *calling process's own* process group, and a positive
target names that single process. -/
def resolve_kill_target (t : Int) : KillDest :=
  if t = 0 then KillDest.ownGroup
  else if t < 0 then KillDest.group (-t).toNat
  else KillDest.single t.toNat

theorem getjobpid_eq_none {jobs : List Job} {pid : Nat}
    (h : getjobpid jobs pid = none) : ∀ j ∈ jobs, j.pid ≠ pid := by
  intro j hj
  have hx := List.find?_eq_none.mp h j hj
  simpa using hx

theorem getjobpid_mem {jobs : List Job} {pid : Nat} {j : Job}
    (h : getjobpid jobs pid = some j) : j ∈ jobs ∧ j.pid = pid := by
  refine ⟨List.mem_of_find?_eq_some h, ?_⟩
  have hx := List.find?_some h
  simpa using hx

theorem getjobjid_mem {jobs : List Job} {jid : Int} {j : Job}
    (h : getjobjid jobs jid = some j) : j ∈ jobs ∧ (j.jid : Int) = jid := by
  refine ⟨List.mem_of_find?_eq_some h, ?_⟩
  have hx := List.find?_some h
  simpa using hx

theorem mem_deletejob {jobs : List Job} {pid : Nat} {k : Job}
    (h : k ∈ deletejob jobs pid) : k ∈ jobs ∧ k.pid ≠ pid := by
  have hx := List.mem_filter.mp h
  simpa using hx

theorem mem_set_state {jobs : List Job} {pid : Nat} {s : JState} {k : Job}
    (h : k ∈ set_state jobs pid s) :
    (k.state = s ∧ k.pid = pid) ∨ (k ∈ jobs ∧ k.pid ≠ pid) := by
  rcases List.mem_map.mp h with ⟨j, hj, rfl⟩
  by_cases hp : j.pid = pid
  · left; simp [hp]
  · right; simp [hp, hj]

theorem set_state_no_match {jobs : List Job} {pid : Nat} (s : JState)
    (h : ∀ k ∈ jobs, k.pid ≠ pid) : set_state jobs pid s = jobs := by
  induction jobs with
  | nil => rfl
  | cons a l ih =>
    have ha := h a (List.mem_cons_self a l)
    have hl := ih (fun k hk => h k (List.mem_cons_of_mem a hk))
    simp only [set_state, List.map_cons, if_neg ha]
    simp only [set_state] at hl
    rw [hl]

theorem pid_map_set_state (jobs : List Job) (pid : Nat) (s : JState) :
    (set_state jobs pid s).map Job.pid = jobs.map Job.pid := by
  induction jobs with
  | nil => rfl
  | cons a l ih =>
    simp only [set_state, List.map_cons] at ih ⊢
    rw [ih]
    by_cases hp : a.pid = pid <;> simp [hp]

theorem fg_count_cons (a : Job) (l : List Job) :
    fg_count (a :: l) = fg_count l + (if a.state = JState.FG then 1 else 0) := by
  simp [fg_count, List.countP_cons]

theorem fg_count_eq_zero {jobs : List Job} :
    fg_count jobs = 0 ↔ ∀ j ∈ jobs, j.state ≠ JState.FG := by
  simp [fg_count, List.countP_eq_zero]

theorem fg_count_addjob (jobs : List Job) (pid : Nat) (st : JState)
    (cmd : String) :
    fg_count (addjob jobs pid st cmd) =
      fg_count jobs + (if st = JState.FG then 1 else 0) := by
  simp [addjob, fg_count, List.countP_append, List.countP_cons]

theorem two_mem_le_countP {p : Job → Bool} {l : List Job} {a b : Job}
    (ha : a ∈ l) (hb : b ∈ l) (hab : a ≠ b) (hpa : p a = true)
    (hpb : p b = true) : 2 ≤ l.countP p := by
  induction l with
  | nil => cases ha
  | cons x l ih =>
    rcases List.mem_cons.mp ha with rfl | ha'
    · rcases List.mem_cons.mp hb with rfl | hb'
      · exact absurd rfl hab
      · have h1 : 0 < l.countP p := List.countP_pos_iff.mpr ⟨b, hb', hpb⟩
        rw [List.countP_cons_of_pos _ _ hpa]
        omega
    · rcases List.mem_cons.mp hb with rfl | hb'
      · have h1 : 0 < l.countP p := List.countP_pos_iff.mpr ⟨a, ha', hpa⟩
        rw [List.countP_cons_of_pos _ _ hpb]
        omega
      · have h2 := ih ha' hb'
        rw [List.countP_cons]
        omega

theorem fg_unique {jobs : List Job} (hle : fg_count jobs ≤ 1) {j : Job}
    (hj : j ∈ jobs) (hfg : j.state = JState.FG) :
    ∀ k ∈ jobs, k.state = JState.FG → k = j := by
  intro k hk hkfg
  by_contra hne
  have h2 : 2 ≤ fg_count jobs :=
    two_mem_le_countP hk hj hne (by simp [hkfg]) (by simp [hfg])
  omega

theorem pid_unique {jobs : List Job} (hnd : (jobs.map Job.pid).Nodup)
    {j k : Job} (hj : j ∈ jobs) (hk : k ∈ jobs) (h : j.pid = k.pid) :
    j = k :=
  List.inj_on_of_nodup_map hnd hj hk h

theorem fg_count_deletejob_of_no_fg_match {jobs : List Job} {pid : Nat}
    (h : ∀ k ∈ jobs, k.pid = pid → k.state ≠ JState.FG) :
    fg_count (deletejob jobs pid) = fg_count jobs := by
  induction jobs with
  | nil => rfl
  | cons a l ih =>
    have hl := ih (fun k hk => h k (List.mem_cons_of_mem a hk))
    by_cases hp : a.pid = pid
    · have hnfg := h a (List.mem_cons_self a l) hp
      simp only [deletejob, List.filter_cons] at hl ⊢
      rw [fg_count_cons, if_neg hnfg]
      simpa [hp] using hl
    · simp only [deletejob, List.filter_cons] at hl ⊢
      have hbne : (a.pid != pid) = true := by simpa using hp
      rw [hbne]
      simp only [if_true]
      rw [fg_count_cons, fg_count_cons, hl]

theorem fg_count_set_state_zero {jobs : List Job} {pid : Nat} {s : JState}
    (h0 : fg_count jobs = 0) (hs : s ≠ JState.FG) :
    fg_count (set_state jobs pid s) = 0 := by
  rw [fg_count_eq_zero] at h0 ⊢
  intro k hk
  rcases mem_set_state hk with ⟨hks, _⟩ | ⟨hkmem, _⟩
  · rw [hks]; exact hs
  · exact h0 k hkmem

theorem fg_count_set_state_of_no_fg_match {jobs : List Job} {pid : Nat}
    {s : JState} (h : ∀ k ∈ jobs, k.pid = pid → k.state ≠ JState.FG)
    (hs : s ≠ JState.FG) :
    fg_count (set_state jobs pid s) = fg_count jobs := by
  induction jobs with
  | nil => rfl
  | cons a l ih =>
    have hl := ih (fun k hk => h k (List.mem_cons_of_mem a hk))
    simp only [set_state, List.map_cons] at hl ⊢
    by_cases hp : a.pid = pid
    · have hnfg := h a (List.mem_cons_self a l) hp
      rw [if_pos hp, fg_count_cons, fg_count_cons, hl, if_neg hs, if_neg hnfg]
    · rw [if_neg hp, fg_count_cons, fg_count_cons, hl]

theorem fg_count_deletejob_zero {jobs : List Job} {pid : Nat}
    (h0 : fg_count jobs = 0) : fg_count (deletejob jobs pid) = 0 := by
  rw [fg_count_eq_zero] at h0 ⊢
  intro k hk
  exact h0 k (mem_deletejob hk).1

theorem fg_count_deletejob_fg {jobs : List Job} {pid : Nat} {j : Job}
    (hle : fg_count jobs ≤ 1) (hj : j ∈ jobs) (hjp : j.pid = pid)
    (hfg : j.state = JState.FG) :
    fg_count (deletejob jobs pid) = 0 := by
  rw [fg_count_eq_zero]
  intro k hk hkfg
  rcases mem_deletejob hk with ⟨hkmem, hkp⟩
  have hkj := fg_unique hle hj hfg k hkmem hkfg
  exact hkp (hkj ▸ hjp)

theorem fg_count_set_state_st_fg {jobs : List Job} {pid : Nat} {j : Job}
    (hle : fg_count jobs ≤ 1) (hj : j ∈ jobs) (hjp : j.pid = pid)
    (hfg : j.state = JState.FG) :
    fg_count (set_state jobs pid JState.ST) = 0 := by
  rw [fg_count_eq_zero]
  intro k hk hkfg
  rcases mem_set_state hk with ⟨hks, _⟩ | ⟨hkmem, hkp⟩
  · rw [hks] at hkfg; cases hkfg
  · have hkj := fg_unique hle hj hfg k hkmem hkfg
    exact hkp (hkj ▸ hjp)

theorem fg_count_set_state_le_one {jobs : List Job} {pid : Nat} {s : JState}
    (hnd : (jobs.map Job.pid).Nodup) (h0 : fg_count jobs = 0) :
    fg_count (set_state jobs pid s) ≤ 1 := by
  induction jobs with
  | nil => simp [set_state, fg_count]
  | cons a l ih =>
    rw [List.map_cons, List.nodup_cons] at hnd
    rw [fg_count_cons] at h0
    have h0l : fg_count l = 0 := by omega
    by_cases hp : a.pid = pid
    · have hnol : set_state l pid s = l := by
        apply set_state_no_match
        intro k hk hkp
        apply hnd.1
        have hm : k.pid ∈ List.map Job.pid l := List.mem_map_of_mem Job.pid hk
        rwa [hkp, ← hp] at hm
      have ht : fg_count (set_state l pid s) = 0 := by rw [hnol]; exact h0l
      simp only [set_state, List.map_cons, if_pos hp]
      simp only [set_state] at ht
      rw [fg_count_cons, ht]
      split <;> omega
    · have hil := ih hnd.2 h0l
      simp only [set_state, List.map_cons, if_neg hp]
      simp only [set_state] at hil
      rw [fg_count_cons]
      omega

theorem nodup_pids_addjob {jobs : List Job} {pid : Nat} {st : JState}
    {cmd : String} (hnd : (jobs.map Job.pid).Nodup)
    (hfresh : getjobpid jobs pid = none) :
    ((addjob jobs pid st cmd).map Job.pid).Nodup := by
  have hmem : pid ∉ jobs.map Job.pid := by
    intro hm
    rcases List.mem_map.mp hm with ⟨j, hj, hp⟩
    exact getjobpid_eq_none hfresh j hj hp
  simp [addjob, List.nodup_append, hnd, hmem]

theorem nodup_pids_deletejob {jobs : List Job} {pid : Nat}
    (hnd : (jobs.map Job.pid).Nodup) :
    ((deletejob jobs pid).map Job.pid).Nodup := by
  have hsub : List.Sublist (deletejob jobs pid) jobs := List.filter_sublist jobs
  exact List.Nodup.sublist (List.Sublist.map Job.pid hsub) hnd

theorem reap_one_shape {jobs : List Job} {flag : Bool} {pid : Nat}
    {ev : ChildEvent} {r : ReapResult}
    (h : reap_one jobs flag pid ev = some r) :
    ∃ j, getjobpid jobs pid = some j ∧
      r.sig_chld = (if j.state = JState.FG then true else flag) ∧
      (r.jobs = deletejob jobs pid ∨ r.jobs = set_state jobs pid JState.ST) := by
  cases hgj : getjobpid jobs pid with
  | none =>
    rw [reap_one, hgj] at h
    cases h
  | some j =>
    refine ⟨j, rfl, ?_⟩
    cases ev with
    | exited =>
      simp only [reap_one, hgj] at h
      injection h with h
      rw [← h]
      exact ⟨rfl, Or.inl rfl⟩
    | signaled s =>
      simp only [reap_one, hgj] at h
      injection h with h
      rw [← h]
      exact ⟨rfl, Or.inl rfl⟩
    | stopped s =>
      simp only [reap_one, hgj] at h
      injection h with h
      rw [← h]
      exact ⟨rfl, Or.inr rfl⟩

theorem builtin_bgfg_shape (tok : String) (st : JState) (jobs : List Job)
    (flag : Bool) (hst : st ≠ JState.ST) :
    ((builtin_bgfg tok st jobs flag).jobs = jobs ∧
      (builtin_bgfg tok st jobs flag).sig_chld = flag) ∨
    ∃ j ∈ jobs, j.state = JState.ST ∧
      (builtin_bgfg tok st jobs flag).jobs = set_state jobs j.pid st ∧
      (builtin_bgfg tok st jobs flag).sig_chld =
        (if st = JState.FG then false else flag) := by
  cases hgj : getjobjid jobs (gjid_past_perc tok) with
  | none =>
    left
    constructor <;> simp [builtin_bgfg, hgj]
  | some j =>
    by_cases hj : j.state = JState.ST
    · right
      refine ⟨j, (getjobjid_mem hgj).1, hj, ?_, ?_⟩ <;>
        cases st with
        | FG => simp [builtin_bgfg, hgj, hj]
        | BG => simp [builtin_bgfg, hgj, hj]
        | ST => exact absurd rfl hst
    · left
      constructor <;> simp [builtin_bgfg, hgj, hj]

theorem shell_inv_step {s t : Shell} (hinv : ShellInv s)
    (hst : ShellStep s t) : ShellInv t := by
  obtain ⟨hnd, hle, hflag, hprompt⟩ := hinv
  cases hst with
  | launchFG pid cmd hw hfresh =>
    have h0 : fg_count s.jobs = 0 := hprompt hw
    refine ⟨nodup_pids_addjob hnd hfresh, ?_, ?_, ?_⟩
    · rw [fg_count_addjob, h0]
      split <;> omega
    · intro hc; simp at hc
    · intro hw2; simp at hw2
  | launchBG pid cmd hw hfresh =>
    have h0 : fg_count s.jobs = 0 := hprompt hw
    have h1 : fg_count (addjob s.jobs pid JState.BG cmd) = 0 := by
      rw [fg_count_addjob, h0]
      simp
    exact ⟨nodup_pids_addjob hnd hfresh, h1.le.trans (Nat.zero_le 1),
      fun _ => h1, fun _ => h1⟩
  | bgCmd tok hw =>
    have h0 : fg_count s.jobs = 0 := hprompt hw
    rcases builtin_bgfg_shape tok JState.BG s.jobs s.sig_chld (by decide)
      with ⟨hj, hf⟩ | ⟨j, hjmem, hjst, hj, hf⟩
    · refine ⟨by rw [hj]; exact hnd, by rw [hj]; exact hle, ?_, ?_⟩
      · intro hc
        rw [hf] at hc
        rw [hj]
        exact hflag hc
      · intro _
        rw [hj]
        exact h0
    · rw [if_neg (by decide)] at hf
      have h1 : fg_count (set_state s.jobs j.pid JState.BG) = 0 :=
        fg_count_set_state_zero h0 (by decide)
      refine ⟨?_, ?_, ?_, ?_⟩
      · rw [hj, pid_map_set_state]; exact hnd
      · rw [hj]; exact h1.le.trans (Nat.zero_le 1)
      · intro _; rw [hj]; exact h1
      · intro _; rw [hj]; exact h1
  | fgCmd tok hw =>
    have h0 : fg_count s.jobs = 0 := hprompt hw
    rcases builtin_bgfg_shape tok JState.FG s.jobs s.sig_chld (by decide)
      with ⟨hj, hf⟩ | ⟨j, hjmem, hjst, hj, hf⟩
    · refine ⟨by rw [hj]; exact hnd, by rw [hj]; exact hle, ?_, ?_⟩
      · intro hc
        rw [hf] at hc
        rw [hj]
        exact hflag hc
      · intro hw2; simp at hw2
    · rw [if_pos rfl] at hf
      refine ⟨?_, ?_, ?_, ?_⟩
      · rw [hj, pid_map_set_state]; exact hnd
      · rw [hj]; exact fg_count_set_state_le_one hnd h0
      · intro hc
        rw [hf] at hc
        simp at hc
      · intro hw2; simp at hw2
  | reap pid ev r hr =>
    rcases reap_one_shape hr with ⟨j, hgj, hrf, hrj⟩
    obtain ⟨hjmem, hjpid⟩ := getjobpid_mem hgj
    by_cases hjfg : j.state = JState.FG
    · have h1 : fg_count r.jobs = 0 := by
        rcases hrj with h | h
        · rw [h]; exact fg_count_deletejob_fg hle hjmem hjpid hjfg
        · rw [h]; exact fg_count_set_state_st_fg hle hjmem hjpid hjfg
      refine ⟨?_, h1.le.trans (Nat.zero_le 1), fun _ => h1, fun _ => h1⟩
      rcases hrj with h | h
      · rw [h]; exact nodup_pids_deletejob hnd
      · rw [h, pid_map_set_state]; exact hnd
    · have hno : ∀ k ∈ s.jobs, k.pid = pid → k.state ≠ JState.FG := by
        intro k hk hkp
        have hkj : k = j := pid_unique hnd hk hjmem (hkp.trans hjpid.symm)
        rw [hkj]
        exact hjfg
      have heq : fg_count r.jobs = fg_count s.jobs := by
        rcases hrj with h | h
        · rw [h]; exact fg_count_deletejob_of_no_fg_match hno
        · rw [h]; exact fg_count_set_state_of_no_fg_match hno (by decide)
      have hfl : r.sig_chld = s.sig_chld := by rw [hrf, if_neg hjfg]
      refine ⟨?_, heq.le.trans hle, ?_, ?_⟩
      · rcases hrj with h | h
        · rw [h]; exact nodup_pids_deletejob hnd
        · rw [h, pid_map_set_state]; exact hnd
      · intro hc
        rw [hfl] at hc
        rw [heq]
        exact hflag hc
      · intro hw2
        rw [heq]
        exact hprompt hw2
  | wake hw hc =>
    exact ⟨hnd, hle, hflag, fun _ => hflag hc⟩

theorem shell_reach_inv {s : Shell} (hs : ShellReach s) : ShellInv s := by
  induction hs with
  | init => exact ⟨List.nodup_nil, by decide, fun _ => rfl, fun _ => rfl⟩
  | step hs hstep ih => exact shell_inv_step ih hstep

theorem pkj_eq_line (a b c v w : String)
    (h : (") " : String) ++ v ++ " by signal " = w) :
    "Job [" ++ a ++ "] (" ++ b ++ ") " ++ v ++ " by signal " ++ c ++ "\n" =
      "Job [" ++ a ++ "] (" ++ b ++ w ++ c ++ "\n" := by
  rw [← h]
  simp only [String.append_assoc]

/-- C1: for every reachable state of the shell, at most one job in the job
table has state `FG` (ForegroundRunning): launching an external foreground
or background command, the `bg` and `fg` builtins, and the
`sigchld_handler` state updates each preserve this bound along every
execution from start-up. -/
theorem C1_at_most_one_foreground :
    ∀ s : Shell, ShellReach s → fg_count s.jobs ≤ 1 :=
  fun _ hs => (shell_reach_inv hs).2.1

/-- Witness for C1 at the initial state. -/
theorem C1_witness : fg_count (Shell.mk [] false false).jobs ≤ 1 :=
  C1_at_most_one_foreground (Shell.mk [] false false) ShellReach.init

/-- C2 counterexample: a foreground child terminated by signal 9 (SIGKILL,
neither SIGINT nor SIGTSTP) makes the reaper print the verbless line
`Job [1] (123)  by signal 9` instead of the claimed
`Job [1] (123) terminated by signal 9`. -/
theorem C2_counterexample :
    reap_one [Job.mk 123 1 JState.FG ("sleep 100")] false 123
        (ChildEvent.signaled 9) =
      some (ReapResult.mk [] ("Job [1] (123)  by signal 9\n") true) ∧
    ("Job [1] (123)  by signal 9\n" : String) ≠
      "Job [1] (123) terminated by signal 9\n" := by
  constructor
  · decide
  · decide

/-- C2 (amended): on a termination-by-signal or stop report the reaper
prints `print_kill_job` of that job's job id, pid and the signal number,
and that output equals the claimed line
`Job [<jid>] (<pid>) terminated by signal <s>` exactly when `s = SIGINT`,
and equals `Job [<jid>] (<pid>) stopped by signal <s>` exactly when
`s = SIGTSTP`; for every other signal number the verb is omitted. -/
theorem C2_signal_notice_format :
    ∀ (jobs : List Job) (flag : Bool) (pid : Nat) (j : Job) (s : Nat),
      getjobpid jobs pid = some j →
      ((reap_one jobs flag pid (ChildEvent.signaled s)).map ReapResult.out =
          some (print_kill_job j.jid pid s) ∧
        (reap_one jobs flag pid (ChildEvent.stopped s)).map ReapResult.out =
          some (print_kill_job j.jid pid s)) ∧
      (print_kill_job j.jid pid s =
          "Job [" ++ toString j.jid ++ "] (" ++ toString pid ++
            ") terminated by signal " ++ toString s ++ "\n" ↔ s = SIGINT) ∧
      (print_kill_job j.jid pid s =
          "Job [" ++ toString j.jid ++ "] (" ++ toString pid ++
            ") stopped by signal " ++ toString s ++ "\n" ↔ s = SIGTSTP) := by
  intro jobs flag pid j s hgj
  have l1 : ("Job [" : String).length = 5 := by decide
  have l2 : ("] (" : String).length = 3 := by decide
  have l3 : (") " : String).length = 2 := by decide
  have l4 : ("terminated" : String).length = 10 := by decide
  have l5 : ("stopped" : String).length = 7 := by decide
  have l6 : ("" : String).length = 0 := by decide
  have l7 : (" by signal " : String).length = 11 := by decide
  have l8 : ("\n" : String).length = 1 := by decide
  have l9 : (") terminated by signal " : String).length = 23 := by decide
  have l10 : (") stopped by signal " : String).length = 20 := by decide
  refine ⟨⟨by simp [reap_one, hgj], by simp [reap_one, hgj]⟩, ?_, ?_⟩
  · constructor
    · intro h
      by_cases h2 : s = SIGINT
      · exact h2
      · exfalso
        by_cases h20 : s = SIGTSTP
        · rw [print_kill_job, if_neg h2, if_pos h20] at h
          have hl := congrArg String.length h
          simp only [String.length_append] at hl
          omega
        · rw [print_kill_job, if_neg h2, if_neg h20] at h
          have hl := congrArg String.length h
          simp only [String.length_append] at hl
          omega
    · intro h2
      subst h2
      rw [print_kill_job, if_pos rfl]
      exact pkj_eq_line _ _ _ _ _ (by decide)
  · constructor
    · intro h
      by_cases h20 : s = SIGTSTP
      · exact h20
      · exfalso
        by_cases h2 : s = SIGINT
        · rw [print_kill_job, if_pos h2] at h
          have hl := congrArg String.length h
          simp only [String.length_append] at hl
          omega
        · rw [print_kill_job, if_neg h2, if_neg h20] at h
          have hl := congrArg String.length h
          simp only [String.length_append] at hl
          omega
    · intro h20
      subst h20
      rw [print_kill_job, if_neg (by decide), if_pos rfl]
      exact pkj_eq_line _ _ _ _ _ (by decide)

/-- Witness for C2 at a concrete foreground job, pid 123, job id 1. -/
theorem C2_witness :
    ((reap_one [Job.mk 123 1 JState.FG ("sleep 100")] false 123
          (ChildEvent.signaled 2)).map ReapResult.out =
        some (print_kill_job 1 123 2) ∧
      (reap_one [Job.mk 123 1 JState.FG ("sleep 100")] false 123
          (ChildEvent.stopped 2)).map ReapResult.out =
        some (print_kill_job 1 123 2)) ∧
    (print_kill_job 1 123 2 =
        "Job [" ++ toString (1 : Nat) ++ "] (" ++ toString (123 : Nat) ++
          ") terminated by signal " ++ toString (2 : Nat) ++ "\n" ↔
      (2 : Nat) = SIGINT) ∧
    (print_kill_job 1 123 2 =
        "Job [" ++ toString (1 : Nat) ++ "] (" ++ toString (123 : Nat) ++
          ") stopped by signal " ++ toString (2 : Nat) ++ "\n" ↔
      (2 : Nat) = SIGTSTP) :=
  C2_signal_notice_format [Job.mk 123 1 JState.FG ("sleep 100")] false 123
    (Job.mk 123 1 JState.FG ("sleep 100")) 2 (by decide)

/-- C3: the claim is false on the code — when no job is in `FG` state the
forwarder handlers are not no-ops: `fgpid` returns 0, so each handler
executes `Kill(0, sig)`, and a kill target of 0 addresses the shell's own
process group. -/
theorem C3_no_fg_forwarder_hits_own_group :
    ∀ jobs : List Job, (∀ j ∈ jobs, j.state ≠ JState.FG) →
      fgpid jobs = 0 ∧
      sigint_handler_kill jobs = (0, SIGINT) ∧
      sigtstp_handler_kill jobs = (0, SIGTSTP) ∧
      resolve_kill_target 0 = KillDest.ownGroup := by
  intro jobs h
  have hnone : jobs.find? (fun j => j.state == JState.FG) = none := by
    rw [List.find?_eq_none]
    intro j hj
    simpa using h j hj
  have hf : fgpid jobs = 0 := by
    rw [fgpid, hnone]
  refine ⟨hf, ?_, ?_, by decide⟩
  · rw [sigint_handler_kill, get_sig_gpid, hf]
    rfl
  · rw [sigtstp_handler_kill, get_sig_gpid, hf]
    rfl

/-- Witness for C3: a table holding only a background job. -/
theorem C3_witness :
    fgpid [Job.mk 5 1 JState.BG ("sleep 100 &")] = 0 ∧
    sigint_handler_kill [Job.mk 5 1 JState.BG ("sleep 100 &")] =
      (0, SIGINT) ∧
    sigtstp_handler_kill [Job.mk 5 1 JState.BG ("sleep 100 &")] =
      (0, SIGTSTP) ∧
    resolve_kill_target 0 = KillDest.ownGroup :=
  C3_no_fg_forwarder_hits_own_group [Job.mk 5 1 JState.BG ("sleep 100 &")]
    (by decide)

/-- C4: the claim is false on the code — on the `fg` path the unblock
(src/tsh.c:414) happens before the flag check of src/tsh.c:195, so a
SIGCHLD delivered between that check and `Sigsuspend` is consumed by the
handler and the suspension then waits forever: the state `suspended` with
`sig_chld = true` and nothing pending is reachable, admits no step at all,
and every state reachable from it is itself — the wait never finishes even
though the job's stop was delivered. -/
theorem C4_fg_wait_lost_wakeup :
    WaitReach (WaitState.mk WaitLoc.check false 1)
      (WaitState.mk WaitLoc.suspended true 0) ∧
    (∀ t : WaitState,
      ¬ WaitStep (WaitState.mk WaitLoc.suspended true 0) t) ∧
    (∀ t : WaitState,
      WaitReach (WaitState.mk WaitLoc.suspended true 0) t →
        t = WaitState.mk WaitLoc.suspended true 0) := by
  refine ⟨?_, ?_, ?_⟩
  · exact WaitReach.step
      (WaitReach.step
        (WaitReach.step WaitReach.refl (WaitStep.toSuspend 1))
        (WaitStep.deliverAtPre false 0))
      (WaitStep.suspend true 0)
  · intro t h
    cases h
  · intro t h
    induction h with
    | refl => rfl
    | step hr hs ih =>
      rw [ih] at hs
      cases hs

/-- Witness for C4: the stuck suspension is reached and cannot move. -/
theorem C4_witness :
    WaitReach (WaitState.mk WaitLoc.check false 1)
      (WaitState.mk WaitLoc.suspended true 0) ∧
    ¬ WaitStep (WaitState.mk WaitLoc.suspended true 0)
      (WaitState.mk WaitLoc.finished true 0) :=
  ⟨C4_fg_wait_lost_wakeup.1,
    C4_fg_wait_lost_wakeup.2.1 (WaitState.mk WaitLoc.finished true 0)⟩

/-- C5: the claim is false on the code — `gjid_past_perc` is correct only
for single-digit ids; `%12` parses to 122 and `%123` parses to 125303, not
123, because each loop iteration re-reads the whole remaining digit suffix
with `atoi` and scales the accumulator by `Npow10(10, count)`. -/
theorem C5_gjid_multidigit :
    gjid_past_perc ("%5") = 5 ∧
    gjid_past_perc ("%12") = 122 ∧
    gjid_past_perc ("%123") = 125303 ∧
    gjid_past_perc ("%123") ≠ 123 := by
  exact ⟨by decide, by decide, by decide, by decide⟩

/-- C6: the claim is false on the code for `fg` — on an unresolved job
reference `builtin_bgfg` itself is a silent no-op (table unchanged, no
kill, no output, flag untouched), but `eval`'s `BUILTIN_FG` case then
still runs the foreground wait loop, and with `sig_chld` clear and no
child to ever send SIGCHLD that loop never reaches `finished`: the shell
does not return to the command loop. -/
theorem C6_fg_unresolved_reference_waits :
    builtin_bgfg ("%1") JState.FG [] false =
      BgfgResult.mk [] [] ("") false ∧
    builtin_bgfg ("%1") JState.BG [] false =
      BgfgResult.mk [] [] ("") false ∧
    (∀ t : WaitState,
      WaitReach (WaitState.mk WaitLoc.check false 0) t →
        t.loc ≠ WaitLoc.finished) := by
  refine ⟨by decide, by decide, ?_⟩
  have key : ∀ t : WaitState,
      WaitReach (WaitState.mk WaitLoc.check false 0) t →
        t.sig_chld = false ∧ t.pending = 0 ∧ t.loc ≠ WaitLoc.finished := by
    intro t h
    induction h with
    | refl => exact ⟨rfl, rfl, by decide⟩
    | step hr hs ih =>
      obtain ⟨hf, hp, hl⟩ := ih
      cases hs with
      | exitLoop e => simp at hf
      | toSuspend e => exact ⟨rfl, hp, by simp⟩
      | suspend f e => exact ⟨hf, hp, by simp⟩
      | deliverAtCheck f e => simp at hp
      | deliverAtPre f e => simp at hp
      | deliverWake f e => simp at hp
  intro t h
  exact (key t h).2.2

/-- Witness for C6: the entry state of the wait loop itself. -/
theorem C6_witness :
    builtin_bgfg ("%1") JState.FG [] false =
      BgfgResult.mk [] [] ("") false ∧
    (WaitState.mk WaitLoc.check false 0).loc ≠ WaitLoc.finished :=
  ⟨C6_fg_unresolved_reference_waits.1,
    C6_fg_unresolved_reference_waits.2.2 (WaitState.mk WaitLoc.check false 0)
      WaitReach.refl⟩

/-- C7: `bg` or `fg` on a job that is present in the table but not in `ST`
(Stopped) state changes nothing: same job list, no `Kill`, no output, and
the `sig_chld` flag untouched. -/
theorem C7_bgfg_not_stopped_noop :
    ∀ (jobs : List Job) (flag : Bool) (tok : String) (st : JState) (j : Job),
      getjobjid jobs (gjid_past_perc tok) = some j →
      j.state ≠ JState.ST →
      builtin_bgfg tok st jobs flag = BgfgResult.mk jobs [] ("") flag := by
  intro jobs flag tok st j hgj hst
  simp [builtin_bgfg, hgj, hst]

/-- Witness for C7: `fg %1` on a running background job. -/
theorem C7_witness :
    builtin_bgfg ("%1") JState.FG [Job.mk 7 1 JState.BG ("sleep 100 &")]
      false =
    BgfgResult.mk [Job.mk 7 1 JState.BG ("sleep 100 &")] [] ("") false :=
  C7_bgfg_not_stopped_noop [Job.mk 7 1 JState.BG ("sleep 100 &")] false
    ("%1") JState.FG (Job.mk 7 1 JState.BG ("sleep 100 &")) (by decide)
    (by decide)

/-- C8: on both external-command dispatch paths the three signals are
blocked at every instruction from the fork through the completion of
`addjob`, and every guard release (the explicit unblock, or the atomic
mask exchange of the suspend loop) comes strictly after `addjob`. -/
theorem C8_guard_spans_fork_to_add :
    guard_spans_add eval_external_fg ∧ guard_spans_add eval_external_bg := by
  constructor <;> (unfold guard_spans_add; decide)

/-- Witness for C8: the signals are blocked at the `addjob` instruction of
the foreground path. -/
theorem C8_witness : blocked_at eval_external_fg 3 = true :=
  (C8_guard_spans_fork_to_add.1 ⟨1, by decide⟩ ⟨3, by decide⟩ ⟨3, by decide⟩
    (by decide) (by decide)).1 (by decide) (by decide)

/-- C9: on the external foreground path, `sig_chld = 0` executes strictly
before `addjob` and while the three signals are blocked; and one
`sigchld_handler` iteration leaves the flag unchanged when the changed
child's recorded state was not `FG`, and can only set it when the recorded
state was `FG` — so state changes of background jobs never end a
foreground wait. -/
theorem C9_fg_wait_flag_discipline :
    (∀ i j : Fin eval_external_fg.length,
      eval_external_fg.get i = EvalInstr.clearFlag →
      is_addjob (eval_external_fg.get j) = true →
      i.val < j.val ∧ blocked_at eval_external_fg i.val = true) ∧
    (∀ (jobs : List Job) (flag : Bool) (pid : Nat) (ev : ChildEvent)
        (j : Job) (r : ReapResult),
      getjobpid jobs pid = some j →
      reap_one jobs flag pid ev = some r →
      (j.state ≠ JState.FG → r.sig_chld = flag) ∧
      (r.sig_chld = true → flag = true ∨ j.state = JState.FG)) := by
  constructor
  · decide
  · intro jobs flag pid ev j r hgj hr
    rcases reap_one_shape hr with ⟨j2, hgj2, hrf, _⟩
    rw [hgj] at hgj2
    injection hgj2 with hj2
    subst hj2
    constructor
    · intro hnfg
      rw [hrf, if_neg hnfg]
    · intro hc
      by_cases hfg : j.state = JState.FG
      · right; exact hfg
      · left
        rw [hrf, if_neg hfg] at hc
        exact hc

/-- Witness for C9: clear-flag position in the trace, and a background
job's termination leaving the flag clear. -/
theorem C9_witness :
    ((2 : Nat) < 3 ∧ blocked_at eval_external_fg 2 = true) ∧
    ((Job.mk 9 1 JState.BG ("sleep 100 &")).state ≠ JState.FG →
      (ReapResult.mk [] ("") false).sig_chld = false) :=
  ⟨C9_fg_wait_flag_discipline.1 ⟨2, by decide⟩ ⟨3, by decide⟩ (by decide)
      (by decide),
    (C9_fg_wait_flag_discipline.2 [Job.mk 9 1 JState.BG ("sleep 100 &")]
      false 9 ChildEvent.exited (Job.mk 9 1 JState.BG ("sleep 100 &"))
      (ReapResult.mk [] ("") false) (by decide) (by decide)).1⟩

theorem npow10_loop_eq : ∀ (n : Nat) (N : Int),
    npow10_loop N n = N * 5 ^ n := by
  intro n
  induction n with
  | zero => intro N; simp [npow10_loop]
  | succ k ih =>
    intro N
    show npow10_loop (N + N * 4) k = N * 5 ^ (k + 1)
    rw [ih (N + N * 4)]
    ring

/-- C10: for every `N` and `n` (machine ints modelled unbounded, matching
the claim's no-overflow premise), `Npow10 N n` equals `(N * 10 ^ n) / 10`
under C's truncating integer division, and in particular
`Npow10 10 n = 10 ^ n`. -/
theorem C10_Npow10_correct :
    ∀ (N : Int) (n : Nat),
      Npow10 N n = Int.tdiv (N * 10 ^ n) 10 ∧ Npow10 10 n = 10 ^ n := by
  have h1 : ∀ (M : Int) (n : Nat),
      Npow10 M n = Int.tdiv (M * 10 ^ n) 10 := by
    intro M n
    rw [Npow10, npow10_loop_eq]
    congr 1
    have h2 : (2 : Int) ^ n * 5 ^ n = 10 ^ n := by
      rw [← mul_pow]
      norm_num
    rw [mul_assoc, h2]
  intro N n
  refine ⟨h1 N n, ?_⟩
  rw [h1 10 n]
  exact Int.mul_tdiv_cancel_left (10 ^ n) (by norm_num)

end Tsh
